import Mathlib

/-!
Verification development for the nyctraintime HTTP edge layer
(src/src/main.rs): line validation, TTL cache, admission control,
and the request orchestrator `handle_train_calendar`.

Machine integers do not occur on any modelled path; times and counters
are modelled as `Nat` (seconds / counts).
-/

namespace NycTrainTime

/-- The characters of the recognized format suffix ".ics". -/
def icsSuffix : List Char := ['.', 'i', 'c', 's']

/-- Boolean check that `suff` is a suffix of `l` (Rust `str::ends_with`). -/
def hasSuffix (l suff : List Char) : Bool :=
  suff.length ≤ l.length && l.drop (l.length - suff.length) == suff

/-- Rust `train_name.strip_suffix(".ics").unwrap_or(&train_name)`
(main.rs line 70): if the name ends with ".ics", the suffix is removed
once; otherwise the name is returned unchanged. -/
def stripIcs (s : String) : String :=
  if hasSuffix s.data icsSuffix then
    String.mk (s.data.take (s.data.length - icsSuffix.length))
  else s

/-- The fixed allow-list `VALID_TRAINS` (main.rs lines 72-75),
case-sensitive. -/
def VALID_TRAINS : List String :=
  ["A", "C", "E", "B", "D", "F", "M", "G", "J", "Z", "L", "N", "Q", "R",
   "W", "1", "2", "3", "4", "5", "6", "7", "S", "SI"]

/-- Cache TTL in seconds (main.rs line 24: `time_to_live(Duration::from_secs(30))`). -/
def TTL : Nat := 30

/-- Cache maximum capacity (main.rs line 23: `max_capacity(100)`). -/
def MAX_CAPACITY : Nat := 100

/-- A cache entry: the calendar text and its absolute expiry time
(insertion time + TTL). -/
structure CacheEntry where
  value : String
  expiry : Nat
deriving Repr, DecidableEq

/-- The calendar cache, an association from line identifier to entry,
ordered most-recently-inserted first. -/
abbrev Cache := List (String × CacheEntry)

/-- Modelled from the spec: the Calendar Cache `get` operation.  The cache
implementation is the moka crate (not under src/); main.rs configures it
with a 30-second TTL.  Per spec §4.3, `get` returns content only if an
entry exists and its expiry time has not elapsed; otherwise it behaves as
a miss. -/
def cacheGet (c : Cache) (now : Nat) (k : String) : Option String :=
  match c.find? (fun p => p.1 == k) with
  | some p => if now < p.2.expiry then some p.2.value else none
  | none => none

/-- Remove any entry for key `k` (insert replaces, never duplicates). -/
def removeKey (c : Cache) (k : String) : Cache :=
  c.filter (fun p => p.1 != k)

/-- Modelled from the spec: the Calendar Cache `put` operation.  The cache
implementation is the moka crate (not under src/); main.rs configures
max_capacity 100 and TTL 30 s.  Per spec §4.3, `put` inserts or overwrites
the entry for the key with expiry now + TTL, and when inserting would
exceed the maximum entry count an existing (least-recently-inserted)
entry is evicted first. -/
def cachePut (c : Cache) (now : Nat) (k v : String) : Cache :=
  (k, { value := v, expiry := now + TTL }) ::
    (if MAX_CAPACITY ≤ (removeKey c k).length
     then (removeKey c k).take (MAX_CAPACITY - 1)
     else removeKey c k)

/-- Outcome of the upstream fetch `nyc_train_time::generate_train_ics`
(an opaque collaborator returning calendar text or an error). -/
inductive FetchResult where
  | ok (content : String)
  | err (msg : String)
deriving Repr, DecidableEq

/-- An HTTP response: status code, optional Content-Type header, body. -/
structure Response where
  status : Nat
  contentType : Option String
  body : String
deriving Repr, DecidableEq

/-- Result of one handler invocation: the response, the cache afterwards,
and how many times the upstream fetch was invoked during the request. -/
structure HandlerOut where
  response : Response
  cache : Cache
  upstreamCalls : Nat
deriving Repr, DecidableEq

/-- `handle_train_calendar` (main.rs lines 66-125): strip the optional
".ics" suffix, reject tokens outside `VALID_TRAINS` with 400, serve a
fresh cache entry with 200, otherwise invoke the upstream fetch once;
on success insert into the cache and respond 200, on failure respond 500
leaving the cache unmodified. -/
def handle_train_calendar (cache : Cache) (now : Nat) (rawName : String)
    (fetch : String → FetchResult) : HandlerOut :=
  let train_name := stripIcs rawName
  if VALID_TRAINS.contains train_name then
    match cacheGet cache now train_name with
    | some cached_content =>
      { response := { status := 200,
                      contentType := some ("text/calendar; charset=utf-8"),
                      body := cached_content },
        cache := cache, upstreamCalls := 0 }
    | none =>
      match fetch train_name with
      | FetchResult.ok ics_content =>
        { response := { status := 200,
                        contentType := some ("text/calendar; charset=utf-8"),
                        body := ics_content },
          cache := cachePut cache now train_name ics_content,
          upstreamCalls := 1 }
      | FetchResult.err e =>
        { response := { status := 500, contentType := none,
                        body := "Error generating calendar: " ++ e },
          cache := cache, upstreamCalls := 1 }
  else
    { response := { status := 400, contentType := none,
                    body := "Invalid train line: " ++ train_name ++
                            ". Train lines are case-sensitive." },
      cache := cache, upstreamCalls := 0 }

/-- A request to the calendar endpoint: arrival time, raw path segment,
and the upstream fetch behaviour during that request. -/
structure Request where
  now : Nat
  name : String
  fetch : String → FetchResult

/-- Run a sequence of requests through the handler, threading the cache. -/
def runRequests (c : Cache) (reqs : List Request) : Cache :=
  reqs.foldl (fun cc r => (handle_train_calendar cc r.now r.name r.fetch).cache) c

/-- Run a sequence of cache inserts (time, key, value) from the empty cache. -/
def runPuts (ops : List (Nat × String × String)) : Cache :=
  ops.foldl (fun cc op => cachePut cc op.1 op.2.1 op.2.2) []

/-- Rate-limiter sustained rate (main.rs line 31: `per_second(10)`). -/
def RATE_PER_SEC : Nat := 10

/-- Rate-limiter burst capacity (main.rs line 32: `burst_size(20)`). -/
def BURST_SIZE : Nat := 20

/-- Global concurrency ceiling (main.rs line 47: `ConcurrencyLimitLayer::new(50)`). -/
def CONCURRENCY_LIMIT : Nat := 50

/-- Modelled from the spec: per-client token bucket of the rate limiter
(the tower_governor GovernorLayer, not under src/; main.rs configures
10 tokens/second, burst 20).  Tokens held plus the time of the last
refill. -/
structure ClientBucket where
  tokens : Nat
  lastRefill : Nat
deriving Repr, DecidableEq

/-- Modelled from the spec: tokens refill monotonically with wall-clock
time at RATE_PER_SEC, capped at the burst ceiling. -/
def refill (b : ClientBucket) (now : Nat) : ClientBucket :=
  { tokens := min (b.tokens + (now - b.lastRefill) * RATE_PER_SEC) BURST_SIZE,
    lastRefill := now }

/-- Modelled from the spec: a fresh bucket starts full. -/
def freshBucket (now : Nat) : ClientBucket :=
  { tokens := BURST_SIZE, lastRefill := now }

/-- Per-client bucket registry keyed by client network address. -/
abbrev BucketMap := List (String × ClientBucket)

/-- Look up (and refill) the bucket for a client, creating a full one on
first contact. -/
def getBucket (bs : BucketMap) (client : String) (now : Nat) : ClientBucket :=
  match bs.find? (fun p => p.1 == client) with
  | some p => refill p.2 now
  | none => freshBucket now

/-- Store the bucket for a client. -/
def setBucket (bs : BucketMap) (client : String) (b : ClientBucket) : BucketMap :=
  (client, b) :: bs.filter (fun p => p.1 != client)

/-- Observable steps of one request through the middleware pipeline. -/
inductive Event where
  | rateRejected
  | slotAcquired
  | slotReleased
  | cacheLookup
  | upstreamCall
deriving Repr, DecidableEq

/-- Shared server state across requests. -/
structure ServerState where
  buckets : BucketMap
  cache : Cache
deriving Repr, DecidableEq

/-- Modelled from the spec: the middleware pipeline of main.rs lines 42-48.
The ServiceBuilder stacks the GovernorLayer (rate limiting) outside the
ConcurrencyLimitLayer, so rate limiting is evaluated first: a request
whose bucket is empty is rejected with 429 before any concurrency slot,
cache access or upstream call; otherwise a slot is taken, the handler
runs, and the slot is released.  Returns the response, the new state,
and the trace of observable events. -/
def processRequest (st : ServerState) (client : String) (now : Nat)
    (rawName : String) (fetch : String → FetchResult) :
    Response × ServerState × List Event :=
  if (getBucket st.buckets client now).tokens = 0 then
    ({ status := 429, contentType := none, body := "too many requests" },
     { st with buckets := setBucket st.buckets client (getBucket st.buckets client now) },
     [Event.rateRejected])
  else
    ((handle_train_calendar st.cache now rawName fetch).response,
     { buckets := setBucket st.buckets client
         { getBucket st.buckets client now with
             tokens := (getBucket st.buckets client now).tokens - 1 },
       cache := (handle_train_calendar st.cache now rawName fetch).cache },
     Event.slotAcquired :: Event.cacheLookup ::
       (if (handle_train_calendar st.cache now rawName fetch).upstreamCalls = 0
        then [] else [Event.upstreamCall]) ++ [Event.slotReleased])

/-- One transition of the global in-flight counter. -/
inductive SlotEvent where
  | acquire
  | release
deriving Repr, DecidableEq

/-- Counter update: acquire increments, release decrements. -/
def stepCount (n : Nat) : SlotEvent → Nat
  | SlotEvent.acquire => n + 1
  | SlotEvent.release => n - 1

/-- Modelled from the spec: admissible traces of the concurrency
semaphore (the tower ConcurrencyLimitLayer, not under src/; main.rs
configures ceiling 50).  An acquire is admitted only while the counter
is below the ceiling (blocking admission), and every release matches an
earlier acquire (the slot is released exactly once per admitted
request). -/
def admissible (n : Nat) : List SlotEvent → Bool
  | [] => true
  | SlotEvent.acquire :: tr => decide (n < CONCURRENCY_LIMIT) && admissible (n + 1) tr
  | SlotEvent.release :: tr => decide (0 < n) && admissible (n - 1) tr

/-- The counter value after a trace, starting from zero. -/
def countAfter (tr : List SlotEvent) : Nat := tr.foldl stepCount 0

/-- `List.contains` agrees with membership for strings. -/
lemma contains_eq_true_iff (l : List String) (a : String) :
    l.contains a = true ↔ a ∈ l := by
  simp [List.contains, List.elem_iff]

/-- Reading the key just written: fresh until `t + TTL`, absent after. -/
lemma cacheGet_cachePut_same (c : Cache) (t t' : Nat) (k v : String) :
    cacheGet (cachePut c t k v) t' k =
      if t' < t + TTL then some v else none := by
  simp [cacheGet, cachePut, List.find?]

/-- A put never leaves the cache above the configured capacity. -/
lemma cachePut_length (c : Cache) (t : Nat) (k v : String) :
    (cachePut c t k v).length ≤ MAX_CAPACITY := by
  unfold cachePut
  simp only [List.length_cons]
  by_cases h : MAX_CAPACITY ≤ (removeKey c k).length
  · rw [if_pos h]
    simp only [List.length_take, MAX_CAPACITY] at h ⊢
    omega
  · rw [if_neg h]
    simp only [MAX_CAPACITY] at h ⊢
    omega

/-- Membership after a put: the new key, or a survivor from before. -/
lemma mem_cachePut (c : Cache) (t : Nat) (k0 v : String) (k : String)
    (e : CacheEntry) (h : (k, e) ∈ cachePut c t k0 v) :
    k = k0 ∨ (k, e) ∈ c := by
  unfold cachePut at h
  rcases List.mem_cons.mp h with h1 | h2
  · left
    exact congrArg Prod.fst h1
  · right
    have hrem : (k, e) ∈ removeKey c k0 := by
      by_cases hcap : MAX_CAPACITY ≤ (removeKey c k0).length
      · rw [if_pos hcap] at h2
        exact List.take_subset _ _ h2
      · rw [if_neg hcap] at h2
        exact h2
    exact List.filter_subset' _ hrem

/-- Folding puts from a within-capacity cache stays within capacity. -/
lemma runPuts_length_aux (ops : List (Nat × String × String)) :
    ∀ c : Cache, c.length ≤ MAX_CAPACITY →
      (ops.foldl (fun cc op => cachePut cc op.1 op.2.1 op.2.2) c).length
        ≤ MAX_CAPACITY := by
  induction ops with
  | nil => intro c hc; exact hc
  | cons op ops ih =>
    intro c _
    exact ih _ (cachePut_length c op.1 op.2.1 op.2.2)

/-- Claim C5: for every line identifier and every content value, a cache
put followed immediately by a get of the same line identifier returns
exactly that content (read-after-write). -/
theorem cache_read_after_write (c : Cache) (now : Nat) (k v : String) :
    cacheGet (cachePut c now k v) now k = some v := by
  rw [cacheGet_cachePut_same]
  simp [TTL]

/-- Claim C4: a cache get returns content only if an entry exists whose
expiry has not elapsed; once the 30-second TTL has elapsed past an
insertion, get returns nothing (a miss, not an error), even though the
entry still physically exists in the store. -/
theorem cache_ttl_expiry (c : Cache) (t t' now : Nat) (k v : String)
    (h : t + TTL ≤ t') :
    (cacheGet (cachePut c t k v) t' k = none ∧
      (k, { value := v, expiry := t + TTL }) ∈ cachePut c t k v) ∧
    (∀ w, cacheGet c now k = some w →
      ∃ e, (k, e) ∈ c ∧ e.value = w ∧ now < e.expiry) := by
  refine ⟨⟨?_, ?_⟩, ?_⟩
  · rw [cacheGet_cachePut_same]
    simp
    omega
  · unfold cachePut
    exact List.mem_cons_self _ _
  · intro w hw
    unfold cacheGet at hw
    cases hfind : List.find? (fun p => p.1 == k) c with
    | none => rw [hfind] at hw; cases hw
    | some p =>
      rw [hfind] at hw
      have hw' : (if now < p.2.expiry then some p.2.value else none) = some w := hw
      by_cases hfresh : now < p.2.expiry
      · rw [if_pos hfresh] at hw'
        have hmem : p ∈ c := List.mem_of_find?_eq_some hfind
        have hk : p.1 = k := by
          have hbeq := List.find?_some hfind
          exact eq_of_beq hbeq
        refine ⟨p.2, ?_, Option.some.inj hw', hfresh⟩
        rw [← hk]
        exact hmem
      · rw [if_neg hfresh] at hw'
        cases hw'

/-- Witness for cache_ttl_expiry at a concrete instance. -/
theorem cache_ttl_expiry_witness :
    cacheGet (cachePut [] 0 ("A") ("x")) 30 ("A") = none ∧
      (("A" : String), { value := "x", expiry := 30 }) ∈ cachePut [] 0 ("A") ("x") :=
  (cache_ttl_expiry [] 0 30 0 ("A") ("x") (by decide)).1

/-- Claim C6: for every sequence of inserts starting from the empty
cache, the cache never holds more than the configured maximum of 100
entries: inserting at capacity evicts an existing entry before the
insert. -/
theorem cache_capacity_bound (ops : List (Nat × String × String)) :
    (runPuts ops).length ≤ MAX_CAPACITY := by
  unfold runPuts
  exact runPuts_length_aux ops [] (by simp [MAX_CAPACITY])

/-- Claim C1: on a cache miss for a validated line, the handler invokes
the upstream fetch exactly once; on success it inserts the content into
the cache under that line and responds 200 with that content and
Content-Type "text/calendar; charset=utf-8"; an identical request within
the 30-second TTL returns the same body with no further upstream call. -/
theorem orchestrator_miss_then_hit (c : Cache) (t t' : Nat) (raw : String)
    (fetch fetch2 : String → FetchResult) (content : String)
    (hvalid : stripIcs raw ∈ VALID_TRAINS)
    (hmiss : cacheGet c t (stripIcs raw) = none)
    (hfetch : fetch (stripIcs raw) = FetchResult.ok content)
    (ht : t' < t + TTL) :
    (handle_train_calendar c t raw fetch).upstreamCalls = 1 ∧
    (handle_train_calendar c t raw fetch).response.status = 200 ∧
    (handle_train_calendar c t raw fetch).response.body = content ∧
    (handle_train_calendar c t raw fetch).response.contentType =
      some ("text/calendar; charset=utf-8") ∧
    (handle_train_calendar c t raw fetch).cache =
      cachePut c t (stripIcs raw) content ∧
    (handle_train_calendar (handle_train_calendar c t raw fetch).cache
        t' raw fetch2).upstreamCalls = 0 ∧
    (handle_train_calendar (handle_train_calendar c t raw fetch).cache
        t' raw fetch2).response.status = 200 ∧
    (handle_train_calendar (handle_train_calendar c t raw fetch).cache
        t' raw fetch2).response.body = content := by
  have hc : VALID_TRAINS.contains (stripIcs raw) = true :=
    (contains_eq_true_iff _ _).mpr hvalid
  have hfirst :
      handle_train_calendar c t raw fetch =
        { response := { status := 200,
                        contentType := some ("text/calendar; charset=utf-8"),
                        body := content },
          cache := cachePut c t (stripIcs raw) content,
          upstreamCalls := 1 } := by
    simp [handle_train_calendar, hc, hvalid, hmiss, hfetch]
  have hhit : cacheGet (cachePut c t (stripIcs raw) content) t' (stripIcs raw)
      = some content := by
    rw [cacheGet_cachePut_same, if_pos ht]
  rw [hfirst]
  simp [handle_train_calendar, hc, hvalid, hhit]

/-- Witness for orchestrator_miss_then_hit at a concrete instance. -/
theorem orchestrator_miss_then_hit_witness :
    (handle_train_calendar [] 0 ("Q.ics")
        (fun _ => FetchResult.ok ("CAL"))).upstreamCalls = 1 ∧
    (handle_train_calendar [] 0 ("Q.ics")
        (fun _ => FetchResult.ok ("CAL"))).response.status = 200 ∧
    (handle_train_calendar [] 0 ("Q.ics")
        (fun _ => FetchResult.ok ("CAL"))).response.body = "CAL" ∧
    (handle_train_calendar [] 0 ("Q.ics")
        (fun _ => FetchResult.ok ("CAL"))).response.contentType =
      some ("text/calendar; charset=utf-8") ∧
    (handle_train_calendar [] 0 ("Q.ics")
        (fun _ => FetchResult.ok ("CAL"))).cache =
      cachePut [] 0 (stripIcs ("Q.ics")) ("CAL") ∧
    (handle_train_calendar
        (handle_train_calendar [] 0 ("Q.ics")
          (fun _ => FetchResult.ok ("CAL"))).cache
        10 ("Q.ics") (fun _ => FetchResult.err ("boom"))).upstreamCalls = 0 ∧
    (handle_train_calendar
        (handle_train_calendar [] 0 ("Q.ics")
          (fun _ => FetchResult.ok ("CAL"))).cache
        10 ("Q.ics") (fun _ => FetchResult.err ("boom"))).response.status = 200 ∧
    (handle_train_calendar
        (handle_train_calendar [] 0 ("Q.ics")
          (fun _ => FetchResult.ok ("CAL"))).cache
        10 ("Q.ics") (fun _ => FetchResult.err ("boom"))).response.body = "CAL" :=
  orchestrator_miss_then_hit [] 0 10 ("Q.ics")
    (fun _ => FetchResult.ok ("CAL")) (fun _ => FetchResult.err ("boom"))
    ("CAL") (by decide) (by decide) (by decide) (by decide)

/-- Claim C2: after stripping the optional ".ics" suffix, the handler
rejects with 400 exactly the tokens outside the fixed case-sensitive
allow-list, and the 400 body names the offending token and notes case
sensitivity. -/
theorem validator_allowlist (c : Cache) (now : Nat) (raw : String)
    (fetch : String → FetchResult) :
    ((handle_train_calendar c now raw fetch).response.status = 400 ↔
      stripIcs raw ∉ VALID_TRAINS) ∧
    (stripIcs raw ∉ VALID_TRAINS →
      (handle_train_calendar c now raw fetch).response.body =
        "Invalid train line: " ++ stripIcs raw ++
          ". Train lines are case-sensitive.") := by
  by_cases hvalid : stripIcs raw ∈ VALID_TRAINS
  · have hc : VALID_TRAINS.contains (stripIcs raw) = true :=
      (contains_eq_true_iff _ _).mpr hvalid
    refine ⟨?_, fun hcon => absurd hvalid hcon⟩
    simp only [handle_train_calendar, hc, if_true]
    cases hg : cacheGet c now (stripIcs raw) with
    | some w => simp [hvalid]
    | none =>
      cases hf : fetch (stripIcs raw) with
      | ok w => simp [hvalid]
      | err e => simp [hvalid]
  · have hc : ¬ (VALID_TRAINS.contains (stripIcs raw) = true) :=
      fun hcon => hvalid ((contains_eq_true_iff _ _).mp hcon)
    constructor
    · simp [handle_train_calendar, hc, hvalid]
    · intro _
      simp [handle_train_calendar, hc, hvalid]

/-- Witness for validator_allowlist at the lowercase token "q". -/
theorem validator_allowlist_witness :
    (handle_train_calendar [] 0 ("q.ics")
        (fun _ => FetchResult.err ("e"))).response.body =
      "Invalid train line: q. Train lines are case-sensitive." := by
  have hbody :=
    (validator_allowlist [] 0 ("q.ics") (fun _ => FetchResult.err ("e"))).2
      (by decide)
  rw [hbody]
  decide

/-- Claim C3: when the upstream fetch fails for a validated line on a
cache miss, the handler responds 500 with the upstream error
description, leaves the cache unmodified (no negative caching), and
performed exactly one fetch (no retry at this layer). -/
theorem fetch_failure_server_error (c : Cache) (t : Nat) (raw : String)
    (fetch : String → FetchResult) (e : String)
    (hvalid : stripIcs raw ∈ VALID_TRAINS)
    (hmiss : cacheGet c t (stripIcs raw) = none)
    (hfetch : fetch (stripIcs raw) = FetchResult.err e) :
    (handle_train_calendar c t raw fetch).response.status = 500 ∧
    (handle_train_calendar c t raw fetch).response.body =
      "Error generating calendar: " ++ e ∧
    (handle_train_calendar c t raw fetch).cache = c ∧
    (handle_train_calendar c t raw fetch).upstreamCalls = 1 := by
  have hc : VALID_TRAINS.contains (stripIcs raw) = true :=
    (contains_eq_true_iff _ _).mpr hvalid
  simp [handle_train_calendar, hc, hvalid, hmiss, hfetch]

/-- Witness for fetch_failure_server_error on line "7". -/
theorem fetch_failure_server_error_witness :
    (handle_train_calendar [] 0 ("7")
        (fun _ => FetchResult.err ("timeout"))).response.status = 500 ∧
    (handle_train_calendar [] 0 ("7")
        (fun _ => FetchResult.err ("timeout"))).response.body =
      "Error generating calendar: " ++ "timeout" ∧
    (handle_train_calendar [] 0 ("7")
        (fun _ => FetchResult.err ("timeout"))).cache = [] ∧
    (handle_train_calendar [] 0 ("7")
        (fun _ => FetchResult.err ("timeout"))).upstreamCalls = 1 :=
  fetch_failure_server_error [] 0 ("7") (fun _ => FetchResult.err ("timeout"))
    ("timeout") (by decide) (by decide) (by decide)

/-- One handler step keeps every cache key inside the allow-list. -/
lemma handler_cache_keys (c : Cache) (now : Nat) (raw : String)
    (fetch : String → FetchResult)
    (hinv : ∀ k e, (k, e) ∈ c → k ∈ VALID_TRAINS) :
    ∀ k e, (k, e) ∈ (handle_train_calendar c now raw fetch).cache →
      k ∈ VALID_TRAINS := by
  intro k e hmem
  by_cases hc : VALID_TRAINS.contains (stripIcs raw) = true
  · simp only [handle_train_calendar, hc, if_true] at hmem
    cases hg : cacheGet c now (stripIcs raw) with
    | some w =>
      rw [hg] at hmem
      exact hinv k e hmem
    | none =>
      rw [hg] at hmem
      cases hf : fetch (stripIcs raw) with
      | ok w =>
        rw [hf] at hmem
        rcases mem_cachePut c now (stripIcs raw) w k e hmem with hk | hold
        · rw [hk]
          exact (contains_eq_true_iff _ _).mp hc
        · exact hinv k e hold
      | err msg =>
        rw [hf] at hmem
        exact hinv k e hmem
  · simp only [handle_train_calendar, hc, if_false] at hmem
    exact hinv k e hmem

/-- Folding requests preserves the allow-list key invariant. -/
lemma runRequests_keys_aux (reqs : List Request) :
    ∀ c : Cache, (∀ k e, (k, e) ∈ c → k ∈ VALID_TRAINS) →
      ∀ k e, (k, e) ∈ runRequests c reqs → k ∈ VALID_TRAINS := by
  induction reqs with
  | nil => intro c hc; exact hc
  | cons r reqs ih =>
    intro c hc
    exact ih _ (handler_cache_keys c r.now r.name r.fetch hc)

/-- Claim C10: every key ever stored in the calendar cache over any
sequence of requests from the empty cache is a member of the fixed
allow-list: insertion happens only after validation. -/
theorem cache_keys_valid (reqs : List Request) (k : String) (e : CacheEntry)
    (h : (k, e) ∈ runRequests [] reqs) : k ∈ VALID_TRAINS :=
  runRequests_keys_aux reqs [] (by intro k' e' h'; cases h') k e h

/-- Witness for cache_keys_valid after one successful request for "A". -/
theorem cache_keys_valid_witness : ("A" : String) ∈ VALID_TRAINS :=
  cache_keys_valid [{ now := 0, name := "A", fetch := fun _ => FetchResult.ok ("x") }]
    ("A") { value := "x", expiry := 30 } (by decide)

/-- Counterexample to claim C7 as stated: stripping is not idempotent on
"A.ics.ics" (one strip leaves "A.ics", a second strip changes it again),
and for the base token "A.ics" the inputs with and without the ".ics"
suffix do not validate identically. -/
theorem strip_not_idempotent :
    ¬ (stripIcs (stripIcs ("A.ics.ics")) = stripIcs ("A.ics.ics") ∧
       VALID_TRAINS.contains (stripIcs ("A.ics" ++ ".ics")) =
         VALID_TRAINS.contains (stripIcs ("A.ics"))) := by
  decide

/-- Claim C7 (amended): for every base token that does not itself end in
".ics", the inputs with and without the ".ics" suffix validate
identically; the stripping step removes only the one trailing ".ics"
occurrence, leaves an already-stripped token unchanged, and is
idempotent on such inputs. -/
theorem strip_suffix_amended (s : String)
    (h : hasSuffix s.data icsSuffix = false) :
    stripIcs s = s ∧
    stripIcs (s ++ (".ics")) = s ∧
    stripIcs (stripIcs (s ++ (".ics"))) = stripIcs (s ++ (".ics")) ∧
    VALID_TRAINS.contains (stripIcs (s ++ (".ics"))) =
      VALID_TRAINS.contains (stripIcs s) := by
  have h1 : stripIcs s = s := by
    unfold stripIcs
    rw [h]
    simp
  have hdata : (s ++ (".ics")).data = s.data ++ icsSuffix := rfl
  have hlen : (s.data ++ icsSuffix).length - icsSuffix.length = s.data.length := by
    simp
  have hsuf : hasSuffix (s.data ++ icsSuffix) icsSuffix = true := by
    unfold hasSuffix
    rw [hlen, List.drop_left]
    simp
  have h2 : stripIcs (s ++ (".ics")) = s := by
    unfold stripIcs
    rw [hdata, hsuf]
    simp only [if_true]
    rw [hlen, List.take_left]
  refine ⟨h1, h2, ?_, ?_⟩
  · rw [h2]
    exact h1
  · rw [h2, h1]

/-- Witness for strip_suffix_amended at the base token "A". -/
theorem strip_suffix_amended_witness :
    stripIcs ("A") = "A" ∧
    stripIcs ("A" ++ (".ics")) = "A" ∧
    stripIcs (stripIcs ("A" ++ (".ics"))) = stripIcs ("A" ++ (".ics")) ∧
    VALID_TRAINS.contains (stripIcs ("A" ++ (".ics"))) =
      VALID_TRAINS.contains (stripIcs ("A")) :=
  strip_suffix_amended ("A") (by decide)

/-- The handler never produces the throttling status itself. -/
lemma handler_status_ne_429 (c : Cache) (now : Nat) (raw : String)
    (fetch : String → FetchResult) :
    (handle_train_calendar c now raw fetch).response.status ≠ 429 := by
  by_cases hc : VALID_TRAINS.contains (stripIcs raw) = true
  · simp only [handle_train_calendar, hc, if_true]
    cases hg : cacheGet c now (stripIcs raw) with
    | some w => simp
    | none =>
      cases hf : fetch (stripIcs raw) with
      | ok w => simp
      | err e => simp
  · simp only [handle_train_calendar, hc, if_false]
    simp

/-- Claim C8: rate limiting is evaluated before concurrency admission: a
request rejected by the per-client rate limiter never acquires a
concurrency slot, never reaches the cache lookup or the upstream fetch,
and leaves the cache untouched. -/
theorem rate_limit_before_concurrency (st : ServerState) (client : String)
    (now : Nat) (raw : String) (fetch : String → FetchResult)
    (h : (processRequest st client now raw fetch).1.status = 429) :
    Event.slotAcquired ∉ (processRequest st client now raw fetch).2.2 ∧
    Event.cacheLookup ∉ (processRequest st client now raw fetch).2.2 ∧
    Event.upstreamCall ∉ (processRequest st client now raw fetch).2.2 ∧
    (processRequest st client now raw fetch).2.1.cache = st.cache := by
  by_cases hz : (getBucket st.buckets client now).tokens = 0
  · simp [processRequest, hz]
  · exfalso
    have hstat : (processRequest st client now raw fetch).1 =
        (handle_train_calendar st.cache now raw fetch).response := by
      simp [processRequest, hz]
    rw [hstat] at h
    exact handler_status_ne_429 st.cache now raw fetch h

/-- Witness for rate_limit_before_concurrency: a client whose bucket is
exhausted and gains no tokens since the last refill is rejected. -/
theorem rate_limit_before_concurrency_witness :
    Event.slotAcquired ∉
      (processRequest
        { buckets := [(("1.2.3.4" : String), { tokens := 0, lastRefill := 5 })],
          cache := [] }
        ("1.2.3.4") 5 ("A") (fun _ => FetchResult.ok ("x"))).2.2 ∧
    Event.cacheLookup ∉
      (processRequest
        { buckets := [(("1.2.3.4" : String), { tokens := 0, lastRefill := 5 })],
          cache := [] }
        ("1.2.3.4") 5 ("A") (fun _ => FetchResult.ok ("x"))).2.2 ∧
    Event.upstreamCall ∉
      (processRequest
        { buckets := [(("1.2.3.4" : String), { tokens := 0, lastRefill := 5 })],
          cache := [] }
        ("1.2.3.4") 5 ("A") (fun _ => FetchResult.ok ("x"))).2.2 ∧
    (processRequest
        { buckets := [(("1.2.3.4" : String), { tokens := 0, lastRefill := 5 })],
          cache := [] }
        ("1.2.3.4") 5 ("A") (fun _ => FetchResult.ok ("x"))).2.1.cache =
      ({ buckets := [(("1.2.3.4" : String), { tokens := 0, lastRefill := 5 })],
         cache := [] } : ServerState).cache :=
  rate_limit_before_concurrency
    { buckets := [(("1.2.3.4" : String), { tokens := 0, lastRefill := 5 })],
      cache := [] }
    ("1.2.3.4") 5 ("A") (fun _ => FetchResult.ok ("x")) (by decide)

/-- Along an admissible trace the counter stays at or below the ceiling. -/
lemma admissible_prefix_bound (pre : List SlotEvent) :
    ∀ (suf : List SlotEvent) (n : Nat), n ≤ CONCURRENCY_LIMIT →
      admissible n (pre ++ suf) = true →
      pre.foldl stepCount n ≤ CONCURRENCY_LIMIT := by
  induction pre with
  | nil => intro suf n hn _; exact hn
  | cons ev pre ih =>
    intro suf n hn hadm
    rw [List.cons_append] at hadm
    cases ev with
    | acquire =>
      unfold admissible at hadm
      rw [Bool.and_eq_true] at hadm
      have hlt : n < CONCURRENCY_LIMIT := of_decide_eq_true hadm.1
      rw [List.foldl_cons]
      exact ih suf (n + 1) hlt hadm.2
    | release =>
      unfold admissible at hadm
      rw [Bool.and_eq_true] at hadm
      rw [List.foldl_cons]
      exact ih suf (n - 1) (le_trans (Nat.sub_le n 1) hn) hadm.2

/-- Along an admissible trace the counter equals start + acquires −
releases (no underflow, every release matches an acquire). -/
lemma admissible_count_eq (tr : List SlotEvent) :
    ∀ n : Nat, admissible n tr = true →
      tr.foldl stepCount n + tr.count SlotEvent.release =
        n + tr.count SlotEvent.acquire := by
  induction tr with
  | nil => intro n _; simp
  | cons ev tr ih =>
    intro n hadm
    cases ev with
    | acquire =>
      unfold admissible at hadm
      rw [Bool.and_eq_true] at hadm
      have h2 := ih (n + 1) hadm.2
      rw [List.foldl_cons, List.count_cons_self,
        List.count_cons_of_ne (by decide)]
      simp only [stepCount] at h2 ⊢
      omega
    | release =>
      unfold admissible at hadm
      rw [Bool.and_eq_true] at hadm
      have hpos : 0 < n := of_decide_eq_true hadm.1
      have h2 := ih (n - 1) hadm.2
      rw [List.foldl_cons, List.count_cons_self,
        List.count_cons_of_ne (by decide)]
      simp only [stepCount] at h2 ⊢
      omega

/-- Claim C9: along every admissible trace of the concurrency semaphore,
the global in-flight counter never exceeds the ceiling of 50, and when
every acquire is matched by a release (all requests completed on every
exit path) the counter has drained back to zero. -/
theorem concurrency_counter_bounded (tr : List SlotEvent)
    (h : admissible 0 tr = true) :
    (∀ pre suf, tr = pre ++ suf → countAfter pre ≤ CONCURRENCY_LIMIT) ∧
    (tr.count SlotEvent.acquire = tr.count SlotEvent.release →
      countAfter tr = 0) := by
  constructor
  · intro pre suf hsplit
    unfold countAfter
    rw [hsplit] at h
    exact admissible_prefix_bound pre suf 0 (by simp) h
  · intro hbal
    have hcnt := admissible_count_eq tr 0 h
    unfold countAfter
    omega

/-- Witness for concurrency_counter_bounded on a balanced trace of two
admitted requests. -/
theorem concurrency_counter_bounded_witness :
    countAfter [SlotEvent.acquire, SlotEvent.acquire, SlotEvent.release,
      SlotEvent.release] = 0 :=
  (concurrency_counter_bounded
    [SlotEvent.acquire, SlotEvent.acquire, SlotEvent.release,
      SlotEvent.release] (by decide)).2 (by decide)

end NycTrainTime
